import Mathlib

/-!
Verification of the imapsrv protocol core (command dispatch, session state
machine, mailbox pattern resolver) against its natural-language specification.

The Go source is embedded shallowly:
* Go strings become `List Char` (`GoStr`); byte indexing that can go out of
  range is modelled explicitly (an out-of-range index is a runtime panic).
* Fallible collaborator calls (`Mailstore`) return `Except GoStr`, the error
  being the Go error text.
* Functions that can panic or recurse unboundedly return an `Out` outcome:
  `.panic` models a Go runtime panic, `.div` models exhaustion of the
  recursion fuel (the Go code recurses without a bound; every theorem about a
  terminating run holds for every sufficient fuel).
* The traversal functions additionally return the ordered log of the paths
  passed to `Mailstore.GetMailboxes`, so that claims counting storage queries
  are statable.
-/

deriving instance DecidableEq for Except

namespace Imapsrv

/-- Go strings, as lists of characters. -/
abbrev GoStr := List Char

/-- Convert a Lean string literal to a `GoStr`. -/
def gs (s : String) : GoStr := s.toList

/-- Decimal rendering of a Go integer, as produced by the `fmt` package. -/
def natStr (n : Nat) : GoStr := (Nat.repr n).toList

/-- The path delimiter constant of command.go (an untyped rune constant in Go). -/
def pathDelimiter : Char := '/'

/-- Mailbox record, as returned by the Mailstore collaborator. -/
structure Mailbox where
  Id : Nat
  Name : GoStr
  Path : GoStr
  Flags : Nat
deriving DecidableEq, Repr

/-- The Mailstore collaborator interface (session.go / spec section 6):
every operation returns a value or a Go error. -/
structure Mailstore where
  GetMailbox : GoStr → Except GoStr (Option Mailbox)
  GetMailboxes : GoStr → Except GoStr (List Mailbox)
  FirstUnseen : Nat → Except GoStr Nat
  TotalMessages : Nat → Except GoStr Nat
  RecentMessages : Nat → Except GoStr Nat
  NextUid : Nat → Except GoStr Nat

/-- IMAP configuration: carries the Mailstore capability. -/
structure Config where
  Mailstore : Mailstore

/-- IMAP session states (session.go). -/
inductive Stat
  | notAuthenticated
  | authenticated
  | selected
deriving DecidableEq, Repr

/-- An IMAP session (session.go): client id, state, optionally selected
mailbox (a nil pointer in Go becomes `none`), configuration. -/
structure Session where
  id : Nat
  st : Stat
  mailbox : Option Mailbox
  config : Config

/-- Response status of the tagged completion line. -/
inductive RStatus
  | OK
  | NO
  | BAD
deriving DecidableEq, Repr

/-- Modelled from the spec: the response value built by the response protocol
encoder (its source file is not under src/; spec sections 3 and 4.3). It
carries the echoed tag, the status, the completion message, the ordered
untagged lines, and the close-after-send flag. -/
structure Response where
  tag : GoStr
  status : RStatus
  message : GoStr
  extras : List GoStr
  closeConnection : Bool
deriving DecidableEq, Repr

/-- Modelled from the spec: build an OK response. -/
def ok (tag message : GoStr) : Response :=
  { tag := tag, status := RStatus.OK, message := message, extras := [], closeConnection := false }

/-- Modelled from the spec: build a NO response. -/
def no (tag message : GoStr) : Response :=
  { tag := tag, status := RStatus.NO, message := message, extras := [], closeConnection := false }

/-- Modelled from the spec: build a BAD response. -/
def bad (tag message : GoStr) : Response :=
  { tag := tag, status := RStatus.BAD, message := message, extras := [], closeConnection := false }

/-- Modelled from the spec: append an untagged line; lines are never
reordered or removed (spec section 3 invariant). -/
def Response.extra (r : Response) (line : GoStr) : Response :=
  { r with extras := r.extras ++ [line] }

/-- Modelled from the spec: set the close-after-send flag. -/
def Response.shouldClose (r : Response) : Response :=
  { r with closeConnection := true }

/-- Outcome of running a piece of Go code that may panic, diverge
(fuel exhaustion of the unbounded recursion), fail with a Go error,
or return a value. -/
inductive Out (α : Type) where
  | panic : Out α
  | div : Out α
  | err : GoStr → Out α
  | ok : α → Out α
deriving DecidableEq, Repr

/-- internalError of command.go: log, then NO with the error text and the
connection-close flag set. -/
def internalError (tag commandName e : GoStr) : Response :=
  (no tag (commandName ++ (gs (" ")) ++ e)).shouldClose

/-- mustAuthenticate of command.go: BAD, command not authenticated. -/
def mustAuthenticate (tag commandName : GoStr) : Response :=
  bad tag (commandName ++ (gs (" not authenticated")))

/-- addTrailingDelimiter of command.go. Go reads `s[len(s)-1]`, which panics
on the empty string: the panic is modelled by `none`. -/
def addTrailingDelimiter (s : GoStr) : Option GoStr :=
  match s.getLast? with
  | none => none
  | some c => if c ≠ pathDelimiter then some (s ++ [pathDelimiter]) else some s

/-- removeDelimiters of command.go. Go reads `s[0]` and `s[end-1]`, which
panic on the empty string: the panic is modelled by `none`. The Go test
`end-start > 0` on ints agrees with the Nat comparison `start < e` used here. -/
def removeDelimiters (s : GoStr) : Option GoStr :=
  match s with
  | [] => none
  | c :: rest =>
    let start : Nat := if c = pathDelimiter then 1 else 0
    let e : Nat := if (c :: rest).getLast? = some pathDelimiter then
        (c :: rest).length - 1 else (c :: rest).length
    if start < e then some (((c :: rest).take e).drop start) else some []

/-- LOGIN execute of command.go, returning the response and the session
after the call (Go mutates the session in place). Only the user id is
compared against the sentinel; the password is never read. -/
def loginExecute (tag userId _password : GoStr) (sess : Session) : Response × Session :=
  if sess.st ≠ Stat.notAuthenticated then
    (bad tag (gs ("LOGIN already logged in")), sess)
  else if userId = gs ("test") then
    (ok tag (gs ("LOGIN completed")), { sess with st := Stat.authenticated })
  else
    (no tag (gs ("LOGIN failure")), sess)

/-- The EXISTS line of addMailboxInfo: `fmt.Sprint(totalMessages, " EXISTS")`. -/
def existsLine (n : Nat) : GoStr := natStr n ++ (gs (" EXISTS"))

/-- The RECENT line of addMailboxInfo: `fmt.Sprint(recentMessages, " RECENT")`. -/
def recentLine (n : Nat) : GoStr := natStr n ++ (gs (" RECENT"))

/-- The UNSEEN line of addMailboxInfo. -/
def unseenLine (n : Nat) : GoStr :=
  (gs ("OK [UNSEEN ")) ++ natStr n ++ (gs ("] Message ")) ++ natStr n ++ (gs (" is first unseen"))

/-- The UIDVALIDITY line of addMailboxInfo (the argument is the mailbox id). -/
def uidValidityLine (n : Nat) : GoStr :=
  (gs ("OK [UIDVALIDITY ")) ++ natStr n ++ (gs ("] UIDs valid"))

/-- The UIDNEXT line of addMailboxInfo. -/
def uidNextLine (n : Nat) : GoStr :=
  (gs ("OK [UIDNEXT ")) ++ natStr n ++ (gs ("] Predicted next UID"))

/-- session.selectMailbox of session.go: look the mailbox up; a storage error
propagates, an absent mailbox yields `false`, a present one is recorded in
the session and yields `true`. Returns the session after the call. -/
def sessSelectMailbox (name : GoStr) (sess : Session) : Except GoStr (Bool × Session) :=
  match sess.config.Mailstore.GetMailbox name with
  | Except.error e => Except.error e
  | Except.ok none => Except.ok (false, sess)
  | Except.ok (some mbox) => Except.ok (true, { sess with mailbox := some mbox })

/-- session.addMailboxInfo of session.go: query the four counters (first
unseen, total, recent, next uid, in that order), abort on the first error,
then append the five untagged lines in the order EXISTS, RECENT, UNSEEN,
UIDVALIDITY, UIDNEXT. Dereferencing a nil selected mailbox panics. -/
def addMailboxInfo (store : Mailstore) (sess : Session) (resp : Response) : Out Response :=
  match sess.mailbox with
  | none => Out.panic
  | some mb =>
    match store.FirstUnseen mb.Id with
    | Except.error e => Out.err e
    | Except.ok firstUnseen =>
      match store.TotalMessages mb.Id with
      | Except.error e => Out.err e
      | Except.ok totalMessages =>
        match store.RecentMessages mb.Id with
        | Except.error e => Out.err e
        | Except.ok recentMessages =>
          match store.NextUid mb.Id with
          | Except.error e => Out.err e
          | Except.ok nextUid =>
            Out.ok (((((resp.extra (existsLine totalMessages)).extra
              (recentLine recentMessages)).extra
              (unseenLine firstUnseen)).extra
              (uidValidityLine mb.Id)).extra
              (uidNextLine nextUid))

/-- selectMailbox.execute of command.go, returning the response and the
session after the call. A non-authenticated state yields BAD; a storage
error yields the internalError response (NO, close); an absent mailbox
yields NO; otherwise the mailbox information lines are added to an OK
response. -/
def selectExecute (tag mailboxName : GoStr) (sess : Session) : Out (Response × Session) :=
  if sess.st ≠ Stat.authenticated then
    Out.ok (mustAuthenticate tag (gs ("SELECT")), sess)
  else
    match sessSelectMailbox mailboxName sess with
    | Except.error e => Out.ok (internalError tag (gs ("SELECT")) e, sess)
    | Except.ok (exists_, sess2) =>
      if exists_ = false then
        Out.ok (no tag (gs ("SELECT No such mailbox")), sess2)
      else
        match addMailboxInfo sess2.config.Mailstore sess2 (ok tag (gs ("SELECT completed"))) with
        | Out.panic => Out.panic
        | Out.div => Out.div
        | Out.err e => Out.ok (internalError tag (gs ("SELECT")) e, sess2)
        | Out.ok res => Out.ok (res, sess2)

/-- A regular-expression atom of the fragment that session.list generates:
a literal character, or the dot metacharacter. -/
inductive RAtom
  | ch : Char → RAtom
  | anyc : RAtom
deriving DecidableEq, Repr

/-- Whether an atom matches one character. Go regexp dot does not match a
newline. -/
def atomMatch : RAtom → Char → Bool
  | RAtom.ch c, x => x = c
  | RAtom.anyc, x => !(x = '\n')

/-- A regular-expression item: an atom, possibly starred. -/
structure RItem where
  atom : RAtom
  star : Bool
deriving DecidableEq, Repr

/-- Parse a regular expression of the fragment generated by session.list
(literal characters, dot, postfix star). A star with no preceding atom is a
compile error, as in Go RE2; `none` models the error. -/
def parseRItems : GoStr → Option (List RItem)
  | [] => some []
  | '*' :: _ => none
  | c :: '*' :: rest2 =>
    (parseRItems rest2).map
      (fun l => { atom := if c = '.' then RAtom.anyc else RAtom.ch c, star := true } :: l)
  | c :: rest =>
    (parseRItems rest).map
      (fun l => { atom := if c = '.' then RAtom.anyc else RAtom.ch c, star := false } :: l)

/-- regexp.Compile, for the generated fragment. -/
def regexCompile (expr : GoStr) : Except GoStr (List RItem) :=
  match parseRItems expr with
  | some items => Except.ok items
  | none => Except.error ((gs ("error parsing regexp: ")) ++ expr)

/-- Whether the items match some prefix of the string. Each recursive call
strictly shrinks the item list or the string, so the structural fuel
`items.length + s.length + 1` supplied by `rmatch` never runs out. -/
def rmatchF : Nat → List RItem → GoStr → Bool
  | 0, _, _ => false
  | _ + 1, [], _ => true
  | fu + 1, i :: rest, s =>
    if i.star then
      rmatchF fu rest s ||
        (match s with
         | [] => false
         | c :: cs => atomMatch i.atom c && rmatchF fu (i :: rest) cs)
    else
      match s with
      | [] => false
      | c :: cs => atomMatch i.atom c && rmatchF fu rest cs

/-- Whether the items match some prefix of the string. -/
def rmatch (items : List RItem) (s : GoStr) : Bool :=
  rmatchF (items.length + s.length + 1) items s

/-- Regexp.MatchString: Go reports whether a match exists anywhere in the
string (the search is unanchored). -/
def matchString (items : List RItem) : GoStr → Bool
  | [] => rmatch items []
  | c :: cs => rmatch items (c :: cs) || matchString items cs

/-- strings.LastIndex for a single character: the index of its last
occurrence, or -1. -/
def goLastIndex (s : GoStr) (c : Char) : Int :=
  match s with
  | [] => -1
  | x :: xs =>
    let r := goLastIndex xs c
    if r ≥ 0 then r + 1
    else if x = c then 0 else -1

/-- Go slice expression s[a:b] (both bounds in range in every reachable call). -/
def goSlice (s : GoStr) (a b : Nat) : GoStr := (s.take b).drop a

/-- Whether the loop of session.listMailboxes keeps a child: no filter, or
the filter matches the name of the child. -/
def keep (re : Option (List RItem)) (m : Mailbox) : Bool :=
  match re with
  | none => true
  | some items => matchString items m.Name

/-- The loop body of session.listMailboxes over the queried children;
`child` is the recursive descent (listMailboxes at the remaining fuel, with
no filter and the recursion flag retained true). Computing the child path
reads `path[len(path)-1]`, which panics when the path is empty. An error in
a recursive call aborts the loop at once and every result collected so far
is discarded. -/
def lmLoop (child : GoStr → Out (List Mailbox) × List GoStr) (path : GoStr)
    (re : Option (List RItem)) (recursive : Bool) :
    List Mailbox → Out (List Mailbox) × List GoStr
  | [] => (Out.ok [], [])
  | mbox :: rest =>
    if keep re mbox then
      if recursive then
        match path.getLast? with
        | none => (Out.panic, [])
        | some lastc =>
          let nextPath := if lastc = pathDelimiter then path ++ mbox.Name
            else path ++ pathDelimiter :: mbox.Name
          match child nextPath with
          | (Out.ok next, lg1) =>
            match lmLoop child path re recursive rest with
            | (Out.ok tail, lg2) => (Out.ok (mbox :: (next ++ tail)), lg1 ++ lg2)
            | (other, lg2) => (other, lg1 ++ lg2)
          | (other, lg1) => (other, lg1)
      else
        match lmLoop child path re recursive rest with
        | (Out.ok tail, lg2) => (Out.ok (mbox :: tail), lg2)
        | (other, lg2) => (other, lg2)
    else
      lmLoop child path re recursive rest

/-- session.listMailboxes of session.go: query the children at the path,
abort on a storage error, keep the children accepted by the filter, and when
the listing is recursive descend into every kept child (no filter, still
recursive) appending the descent right after the child. Also returns the
ordered log of the paths passed to GetMailboxes. The fuel bounds the
unbounded Go recursion; exhaustion gives `Out.div`. -/
def listMailboxes : Nat → Mailstore → GoStr → Option (List RItem) → Bool →
    Out (List Mailbox) × List GoStr
  | 0, _, _, _, _ => (Out.div, [])
  | f + 1, store, path, re, recursive =>
    match store.GetMailboxes path with
    | Except.error e => (Out.err e, [path])
    | Except.ok current =>
      let r := lmLoop (fun p => listMailboxes f store p none true) path re recursive current
      (r.1, path :: r.2)

/-- session.list of session.go: decide recursion from the final character of
the canonical pattern, build the search path and the filter expression for a
terminal wildcard (or append the pattern literally when there is none), and
delegate to listMailboxes. Reading the final character panics on an empty
pattern. -/
def sessList (fuel : Nat) (store : Mailstore) (reference mboxPattern : GoStr) :
    Out (List Mailbox) × List GoStr :=
  match mboxPattern.getLast? with
  | none => (Out.panic, [])
  | some lastChar =>
    let lastIndex : Nat := mboxPattern.length - 1
    let recursive := lastChar = '*'
    if lastChar = '*' ∨ lastChar = '%' then
      let lastDelimiter := goLastIndex mboxPattern pathDelimiter
      let mboxPathPart := if lastDelimiter > 0 then mboxPattern.take lastDelimiter.toNat else []
      let path := reference ++ mboxPathPart
      let expr :=
        if mboxPattern.length = 1 then gs (".*")
        else if lastDelimiter > 0 then
          goSlice mboxPattern lastDelimiter.toNat (lastIndex - 1) ++ (gs (".*"))
        else
          goSlice mboxPattern 0 (lastIndex - 1) ++ (gs (".*"))
      match regexCompile expr with
      | Except.error e => (Out.err e, [])
      | Except.ok re => listMailboxes fuel store path (some re) recursive
    else
      listMailboxes fuel store (reference ++ mboxPattern) none recursive

/-- strings.Join. -/
def goJoin : List GoStr → GoStr → GoStr
  | [], _ => []
  | [x], _ => x
  | x :: xs, sep => x ++ sep ++ goJoin xs sep

/-- Modelled from the spec: the mailboxFlags vocabulary table (its source
file is not under src/; spec section 6 fixes only the vocabulary, e.g.
no-select, has-children, has-no-children, marked). The bit values are chosen
arbitrarily and the iteration order is fixed here, although Go map iteration
order is unspecified; no claim depends on either. -/
def mailboxFlags : List (Nat × GoStr) :=
  [(1, gs ("\\Noselect")), (2, gs ("\\Haschildren")),
   (4, gs ("\\Hasnochildren")), (8, gs ("\\Marked"))]

/-- joinMailboxFlags of command.go: the wire tokens of the set flag bits,
comma-joined. -/
def joinMailboxFlags (m : Mailbox) : GoStr :=
  goJoin ((mailboxFlags.filter (fun p => decide (m.Flags &&& p.1 ≠ 0))).map (fun p => p.2)) (gs (","))

/-- The untagged line of the empty-pattern branch of list.execute. Go passes
the rune constant pathDelimiter to the %s verb of fmt.Sprintf, and fmt
renders a rune given to %s as the literal text %!s(int32=47), not as the
delimiter character. -/
def listEmptyLine (reference : GoStr) : GoStr :=
  (gs ("LIST () \"%!s(int32=47)\" ")) ++ reference

/-- The untagged line rendered for one mailbox by list.execute; the %s verb
applied to the rune constant again yields %!s(int32=47). -/
def listLine (m : Mailbox) : GoStr :=
  (gs ("LIST (")) ++ joinMailboxFlags m ++ (gs (") \"%!s(int32=47)\" ")) ++ m.Path

/-- list.execute of command.go: BAD when not authenticated; an empty pattern
short-circuits with a single untagged line and no storage query; otherwise
the reference is delimiter-normalized (a panic on an empty reference), the
pattern canonicalized, and session.list consulted; a storage error becomes
the internalError response, an empty result NO, and otherwise one untagged
line is appended per mailbox in order. Also returns the GetMailboxes log. -/
def listExecute (fuel : Nat) (tag reference mboxPattern : GoStr) (sess : Session) :
    Out Response × List GoStr :=
  if sess.st ≠ Stat.authenticated then
    (Out.ok (mustAuthenticate tag (gs ("LIST"))), [])
  else if mboxPattern = [] then
    (Out.ok ((ok tag (gs ("LIST completed"))).extra (listEmptyLine reference)), [])
  else
    match addTrailingDelimiter reference with
    | none => (Out.panic, [])
    | some reference2 =>
      match removeDelimiters mboxPattern with
      | none => (Out.panic, [])
      | some pattern2 =>
        let r := sessList fuel sess.config.Mailstore reference2 pattern2
        match r.1 with
        | Out.panic => (Out.panic, r.2)
        | Out.div => (Out.div, r.2)
        | Out.err e => (Out.ok (internalError tag (gs ("LIST")) e), r.2)
        | Out.ok [] => (Out.ok (no tag (gs ("LIST no results"))), r.2)
        | Out.ok mboxes =>
          (Out.ok (mboxes.foldl (fun resp m => resp.extra (listLine m))
            (ok tag (gs ("LIST completed")))), r.2)

/-- Extract the untagged lines of the response of a select outcome. -/
def outRespExtras : Out (Response × Session) → Option (List GoStr)
  | Out.ok (r, _) => some r.extras
  | _ => none

/-- A mailbox used in concrete runs. -/
def wbox : Mailbox := { Id := 7, Name := gs ("box"), Path := gs ("R/box"), Flags := 0 }

/-- A concrete store: one selectable mailbox named box, fixed counters,
no children anywhere. -/
def wstore : Mailstore :=
  { GetMailbox := fun n => if n = gs ("box") then Except.ok (some wbox) else Except.ok none,
    GetMailboxes := fun _ => Except.ok [],
    FirstUnseen := fun _ => Except.ok 2,
    TotalMessages := fun _ => Except.ok 3,
    RecentMessages := fun _ => Except.ok 1,
    NextUid := fun _ => Except.ok 9 }

/-- A concrete authenticated session over wstore. -/
def wsess : Session :=
  { id := 3, st := Stat.authenticated, mailbox := none, config := { Mailstore := wstore } }

/-- A concrete fresh (not authenticated) session over wstore. -/
def session0 : Session :=
  { id := 1, st := Stat.notAuthenticated, mailbox := none, config := { Mailstore := wstore } }

/-- C9: the delimiter-trailing normalization addTrailingDelimiter is
idempotent. Go panics on the empty string (modelled by `none`); on the
Kleisli composition the equation holds for every string, the empty string
included, and on every non-empty string both sides are defined and equal. -/
theorem C9_addTrailingDelimiter_idempotent (s : GoStr) :
    (addTrailingDelimiter s).bind addTrailingDelimiter = addTrailingDelimiter s := by
  match h : s.getLast? with
  | none => simp [addTrailingDelimiter, h]
  | some c =>
    by_cases hc : c = pathDelimiter
    · simp [addTrailingDelimiter, h, hc]
    · simp [addTrailingDelimiter, h, hc, List.getLast?_concat]

/-- C2 is refuted as stated: LOGIN success is not characterized by equality
with any one fixed userId/password pair, because the password is never
compared: from the fresh session, the pairs (test, x) and (test, y) both
yield OK, so no single sentinel pair can be exactly the successful one. -/
theorem C2_counterexample :
    ¬ ∃ u0 p0 : GoStr, ∀ u p : GoStr,
        ((loginExecute (gs ("a1")) u p session0).1.status = RStatus.OK ↔ (u = u0 ∧ p = p0)) := by
  rintro ⟨u0, p0, h⟩
  have h1 := (h (gs ("test")) (gs ("x"))).mp (by decide)
  have h2 := (h (gs ("test")) (gs ("y"))).mp (by decide)
  have hxy : (gs ("x")) = (gs ("y")) := h1.2.trans h2.2.symm
  exact absurd hxy (by decide)

/-- C2 (amended): in the NotAuthenticated state LOGIN succeeds exactly when
the userId equals the sentinel "test" — the password is ignored — moving
the state to Authenticated and returning OK; any other userId yields NO
with the session unchanged; in any other state LOGIN yields BAD with the
session unchanged. -/
theorem C2_login_behavior (sess : Session) (tag u p : GoStr) :
    (sess.st = Stat.notAuthenticated →
      (u = gs ("test") →
        loginExecute tag u p sess =
          (ok tag (gs ("LOGIN completed")), { sess with st := Stat.authenticated })) ∧
      (u ≠ gs ("test") →
        loginExecute tag u p sess = (no tag (gs ("LOGIN failure")), sess))) ∧
    (sess.st ≠ Stat.notAuthenticated →
      loginExecute tag u p sess = (bad tag (gs ("LOGIN already logged in")), sess)) := by
  refine ⟨fun hna => ⟨fun hu => ?_, fun hu => ?_⟩, fun hna => ?_⟩
  · simp [loginExecute, hna, hu]
  · simp [loginExecute, hna, hu]
  · simp [loginExecute, hna]

/-- Witness for C2_login_behavior at the fresh session and the sentinel
user id. -/
theorem C2_login_behavior_witness :
    loginExecute (gs ("a1")) (gs ("test")) (gs ("pw")) session0 =
      (ok (gs ("a1")) (gs ("LOGIN completed")), { session0 with st := Stat.authenticated }) :=
  ((C2_login_behavior session0 (gs ("a1")) (gs ("test")) (gs ("pw"))).1 rfl).1 rfl

/-- C10: a successful session.selectMailbox (mailbox found, no storage
error) only records the selected mailbox: the discrete state field, the id
and the config are unchanged, the state is still Authenticated and in
particular is not set to Selected. -/
theorem C10_selectMailbox_frame (sess : Session) (name : GoStr) (mb : Mailbox)
    (hst : sess.st = Stat.authenticated)
    (hget : sess.config.Mailstore.GetMailbox name = Except.ok (some mb)) :
    sessSelectMailbox name sess = Except.ok (true, { sess with mailbox := some mb }) ∧
    ({ sess with mailbox := some mb } : Session).st = sess.st ∧
    ({ sess with mailbox := some mb } : Session).st = Stat.authenticated ∧
    ({ sess with mailbox := some mb } : Session).st ≠ Stat.selected ∧
    ({ sess with mailbox := some mb } : Session).id = sess.id ∧
    ({ sess with mailbox := some mb } : Session).config = sess.config := by
  refine ⟨?_, rfl, hst, ?_, rfl, rfl⟩
  · simp [sessSelectMailbox, hget]
  · simp [hst]

/-- Witness for C10_selectMailbox_frame at the concrete session and store. -/
theorem C10_selectMailbox_frame_witness :
    sessSelectMailbox (gs ("box")) wsess = Except.ok (true, { wsess with mailbox := some wbox }) :=
  (C10_selectMailbox_frame wsess (gs ("box")) wbox rfl (by decide)).1

/-- C1 is refuted as stated on the append order: at a concrete authenticated
session where the mailbox exists (counters: first unseen 2, total 3,
recent 1, next uid 9, mailbox id 7), the first untagged line appended is the
total-messages EXISTS line, not the first-unseen line, which sits at
position 2; so the lines are not appended in the claimed fixed order
first-unseen, total, recent, next UID. -/
theorem C1_counterexample :
    outRespExtras (selectExecute (gs ("t2")) (gs ("box")) wsess) =
      some [existsLine 3, recentLine 1, unseenLine 2, uidValidityLine 7, uidNextLine 9] ∧
    existsLine 3 ≠ unseenLine 2 := by decide

/-- C1 (amended): SELECT returns BAD when the session is not Authenticated;
with the mailbox absent it returns NO; with the mailbox present it records
it as the selected mailbox of the session and returns OK with exactly 5 untagged
lines, appended in the order total messages (EXISTS), recent messages
(RECENT), first unseen (UNSEEN), UID validity, next UID (UIDNEXT). -/
theorem C1_select_behavior (sess : Session) (tag name : GoStr) :
    (sess.st ≠ Stat.authenticated →
      selectExecute tag name sess = Out.ok (bad tag (gs ("SELECT not authenticated")), sess)) ∧
    (sess.st = Stat.authenticated →
      (sess.config.Mailstore.GetMailbox name = Except.ok none →
        selectExecute tag name sess = Out.ok (no tag (gs ("SELECT No such mailbox")), sess)) ∧
      (∀ mb fu tm rm nu,
        sess.config.Mailstore.GetMailbox name = Except.ok (some mb) →
        sess.config.Mailstore.FirstUnseen mb.Id = Except.ok fu →
        sess.config.Mailstore.TotalMessages mb.Id = Except.ok tm →
        sess.config.Mailstore.RecentMessages mb.Id = Except.ok rm →
        sess.config.Mailstore.NextUid mb.Id = Except.ok nu →
        selectExecute tag name sess = Out.ok
          ({ tag := tag, status := RStatus.OK, message := gs ("SELECT completed"),
             extras := [existsLine tm, recentLine rm, unseenLine fu,
               uidValidityLine mb.Id, uidNextLine nu],
             closeConnection := false },
           { sess with mailbox := some mb }))) := by
  constructor
  · intro h
    have hmsg : mustAuthenticate tag (gs ("SELECT")) = bad tag (gs ("SELECT not authenticated")) := by
      unfold mustAuthenticate
      congr 1
    simp [selectExecute, h, hmsg]
  · intro hst
    constructor
    · intro hget
      simp [selectExecute, hst, sessSelectMailbox, hget]
    · intro mb fu tm rm nu hget hfu htm hrm hnu
      simp [selectExecute, hst, sessSelectMailbox, hget, addMailboxInfo,
        hfu, htm, hrm, hnu, Response.extra, ok]

/-- Witness for C1_select_behavior: the concrete successful SELECT. -/
theorem C1_select_behavior_witness :
    selectExecute (gs ("t2")) (gs ("box")) wsess = Out.ok
      ({ tag := gs ("t2"), status := RStatus.OK, message := gs ("SELECT completed"),
         extras := [existsLine 3, recentLine 1, unseenLine 2,
           uidValidityLine 7, uidNextLine 9],
         closeConnection := false },
       { wsess with mailbox := some wbox }) :=
  ((C1_select_behavior wsess (gs ("t2")) (gs ("box"))).2 rfl).2 wbox 2 3 1 9
    (by decide) (by decide) (by decide) (by decide) (by decide)

/-- C3 is refuted on the delimiter: LIST with an empty pattern issues no
storage query and returns OK with exactly one untagged line that carries the
reference verbatim, but the line does not contain the delimiter character:
Go hands the rune constant pathDelimiter to the %s verb of fmt.Sprintf,
which renders it as the text %!s(int32=47). -/
theorem C3_list_empty_pattern_eval :
    listExecute 1 (gs ("t3")) (gs ("INBOX")) [] wsess =
      (Out.ok { tag := gs ("t3"), status := RStatus.OK, message := gs ("LIST completed"),
                extras := [listEmptyLine (gs ("INBOX"))], closeConnection := false }, []) ∧
    listEmptyLine (gs ("INBOX")) = (gs ("LIST () \"%!s(int32=47)\" ")) ++ (gs ("INBOX")) ∧
    pathDelimiter ∉ listEmptyLine (gs ("INBOX")) := by decide

/-- C4 is refuted: LIST with pattern % and the empty reference does not
complete normally; addTrailingDelimiter reads s[len(s)-1], which on the
empty reference is an out-of-range index, a Go runtime panic, before any
storage query is issued. -/
theorem C4_list_wildcard_empty_reference_panics :
    listExecute 1 (gs ("t4")) [] (gs ("%")) wsess = (Out.panic, []) ∧
    addTrailingDelimiter [] = none := by decide

/-- A mailbox named ba, child of R, for the resolver runs. -/
def mba : Mailbox := { Id := 1, Name := gs ("ba"), Path := gs ("R/ba"), Flags := 0 }

/-- A mailbox named ab, child of R, for the resolver runs. -/
def mab : Mailbox := { Id := 2, Name := gs ("ab"), Path := gs ("R/ab"), Flags := 0 }

/-- A mailbox named c, child of R/ab, for the resolver runs. -/
def mc : Mailbox := { Id := 3, Name := gs ("c"), Path := gs ("R/ab/c"), Flags := 0 }

/-- A concrete store with the hierarchy R/ba, R/ab, R/ab/c. -/
def pstore : Mailstore :=
  { GetMailbox := fun _ => Except.ok none,
    GetMailboxes := fun p =>
      if p = gs ("R/") then Except.ok [mba, mab]
      else if p = gs ("R/ab") then Except.ok [mc]
      else Except.ok [],
    FirstUnseen := fun _ => Except.ok 0,
    TotalMessages := fun _ => Except.ok 0,
    RecentMessages := fun _ => Except.ok 0,
    NextUid := fun _ => Except.ok 0 }

/-- C5 is refuted: for the canonical pattern ab% the claim keeps a child iff
its name starts with the literal prefix ab; but the resolver keeps the child
named ba (which does not start with ab): the generated expression drops the
character before the wildcard (it is a.* rather than ab.*) and Go
MatchString is unanchored, so any name containing an a is kept. -/
theorem C5_wildcard_filter_eval :
    (sessList 2 pstore (gs ("R/")) (gs ("ab%"))).1 = Out.ok [mba, mab] ∧
    (gs ("ba")).take 2 ≠ gs ("ab") := by decide

/-- With no filter and no recursion the loop returns the queried children
unchanged and issues no further query. -/
lemma lmLoop_none_nonrec (child : GoStr → Out (List Mailbox) × List GoStr)
    (path : GoStr) (ms : List Mailbox) :
    lmLoop child path none false ms = (Out.ok ms, []) := by
  induction ms with
  | nil => rfl
  | cons m rest ih => simp [lmLoop, keep, ih]

/-- Children of INBOX/Work, for the exact-lookup runs. -/
def c6a : Mailbox := { Id := 11, Name := gs ("a"), Path := gs ("INBOX/Work/a"), Flags := 0 }

/-- Second child of INBOX/Work, for the exact-lookup runs. -/
def c6b : Mailbox := { Id := 12, Name := gs ("b"), Path := gs ("INBOX/Work/b"), Flags := 0 }

/-- A store where the path INBOX/Work has two immediate children. -/
def cstore6 : Mailstore :=
  { GetMailbox := fun _ => Except.ok none,
    GetMailboxes := fun p => if p = gs ("INBOX/Work") then Except.ok [c6a, c6b] else Except.ok [],
    FirstUnseen := fun _ => Except.ok 0,
    TotalMessages := fun _ => Except.ok 0,
    RecentMessages := fun _ => Except.ok 0,
    NextUid := fun _ => Except.ok 0 }

/-- C6 is refuted on the cardinality: the wildcard-free lookup of Work below
INBOX/ returns every mailbox the single storage query yields — here two
entries — not at most one. -/
theorem C6_counterexample :
    (sessList 1 cstore6 (gs ("INBOX/")) (gs ("Work"))).1 = Out.ok [c6a, c6b] ∧
    ¬ ([c6a, c6b].length ≤ 1) := by decide

/-- C6 (amended): for every non-empty pattern with no wildcard character the
resolver issues exactly one storage query, at the literal concatenation
reference ++ pattern, with no filter and no recursion, and returns exactly
the mailbox list that single query yields (the code does not truncate it to
one exact match). -/
theorem C6_exact_lookup (f : Nat) (store : Mailstore) (reference pat : GoStr)
    (hne : pat ≠ []) (hstar : '*' ∉ pat) (hpct : '%' ∉ pat) :
    sessList (f + 1) store reference pat =
      (match store.GetMailboxes (reference ++ pat) with
       | Except.error e => Out.err e
       | Except.ok l => Out.ok l,
       [reference ++ pat]) := by
  obtain ⟨c, hc⟩ : ∃ c, pat.getLast? = some c := by
    cases h : pat.getLast? with
    | none => exact absurd (List.getLast?_eq_none_iff.mp h) hne
    | some c => exact ⟨c, rfl⟩
  have hcm : c ∈ pat := by
    obtain ⟨hne2, he⟩ := @List.mem_getLast?_eq_getLast Char pat c (Option.mem_def.mpr hc)
    rw [he]
    exact List.getLast_mem hne2
  have hcs : ¬(c = '*' ∨ c = '%') := by
    rintro (rfl | rfl)
    · exact hstar hcm
    · exact hpct hcm
  have hcb : ¬(c = '*') := fun h => hcs (Or.inl h)
  unfold sessList
  rw [hc]
  simp only [if_neg hcs, decide_eq_false hcb]
  unfold listMailboxes
  cases hq : store.GetMailboxes (reference ++ pat) with
  | error e => rfl
  | ok l => simp [lmLoop_none_nonrec]

/-- Witness for C6_exact_lookup at the concrete store: one query, at
INBOX/Work, returning the two children. -/
theorem C6_exact_lookup_witness :
    sessList 1 cstore6 (gs ("INBOX/")) (gs ("Work")) =
      (Out.ok [c6a, c6b], [gs ("INBOX/Work")]) := by
  rw [C6_exact_lookup 0 cstore6 (gs ("INBOX/")) (gs ("Work"))
    (by decide) (by decide) (by decide)]
  decide

/-- The leaf segment of a canonical pattern: everything after the last
delimiter, or the whole pattern when there is none. -/
def leafOf (p : GoStr) : GoStr :=
  if 0 ≤ goLastIndex p pathDelimiter then p.drop ((goLastIndex p pathDelimiter).toNat + 1) else p

/-- A nonnegative goLastIndex points at an occurrence of the character. -/
lemma goLastIndex_get (p : GoStr) (c : Char) (h : 0 ≤ goLastIndex p c) :
    p[(goLastIndex p c).toNat]? = some c := by
  induction p with
  | nil => simp [goLastIndex] at h
  | cons x xs ih =>
    by_cases hr : goLastIndex xs c ≥ 0
    · obtain ⟨n, hn⟩ := Int.eq_ofNat_of_zero_le hr
      have hx := ih hr
      rw [hn] at hx
      simp only [Int.toNat_natCast] at hx
      simp only [goLastIndex]
      rw [hn, if_pos (by exact_mod_cast Nat.zero_le n)]
      have h3 : ((n : Int) + 1).toNat = n + 1 := by omega
      rw [h3]
      simpa using hx
    · by_cases hx : x = c
      · simp [goLastIndex, hr, hx]
      · exfalso
        have hv : goLastIndex (x :: xs) c = -1 := by
          simp [goLastIndex, hr, hx]
        rw [hv] at h
        exact absurd h (by decide)

/-- Dropping a prefix of a non-empty suffix leaves the last element. -/
lemma getLast?_drop_of_ne_nil {α : Type} (l : List α) (k : Nat) (h : l.drop k ≠ []) :
    (l.drop k).getLast? = l.getLast? := by
  conv_rhs => rw [← List.take_append_drop k l]
  rw [List.getLast?_append_of_ne_nil _ h]

/-- An empty leaf segment can only come from a pattern ending in the
delimiter. -/
lemma leafOf_empty_ends_delim (p : GoStr) (hp : p ≠ []) (h : leafOf p = []) :
    p.getLast? = some pathDelimiter := by
  unfold leafOf at h
  by_cases hi : 0 ≤ goLastIndex p pathDelimiter
  · rw [if_pos hi] at h
    have hget := goLastIndex_get p pathDelimiter hi
    have hlt : (goLastIndex p pathDelimiter).toNat < p.length := by
      by_contra hge
      rw [List.getElem?_eq_none (Nat.le_of_not_lt hge)] at hget
      exact Option.noConfusion hget
    have hle : p.length ≤ (goLastIndex p pathDelimiter).toNat + 1 :=
      List.drop_eq_nil_iff.mp h
    have heq : (goLastIndex p pathDelimiter).toNat = p.length - 1 := by omega
    rw [List.getLast?_eq_getElem?, ← heq]
    exact hget
  · rw [if_neg hi] at h
    exact absurd h hp

/-- The last character of a non-empty leaf segment is the last character of
the pattern. -/
lemma leafOf_getLast (p : GoStr) (h : leafOf p ≠ []) :
    (leafOf p).getLast? = p.getLast? := by
  unfold leafOf at h ⊢
  by_cases hi : 0 ≤ goLastIndex p pathDelimiter
  · rw [if_pos hi] at h ⊢
    exact getLast?_drop_of_ne_nil p _ h
  · rw [if_neg hi]

/-- The recursion flag condition of session.list (the last character of the
whole canonical pattern is a star) is equivalent to the last character of
the leaf segment being a star. -/
lemma flag_iff_leaf (p : GoStr) (c : Char) (hp : p.getLast? = some c) :
    ((c = '*') ↔ (leafOf p).getLast? = some '*') := by
  constructor
  · rintro rfl
    have hpne : p ≠ [] := by
      intro h0
      rw [h0] at hp
      exact Option.noConfusion hp
    have hne : leafOf p ≠ [] := by
      intro h
      have hd := leafOf_empty_ends_delim p hpne h
      rw [hp] at hd
      injection hd with hd2
      exact absurd hd2 (by decide)
    rw [leafOf_getLast p hne]
    exact hp
  · intro hl
    have hne : leafOf p ≠ [] := by
      intro h
      rw [h] at hl
      exact Option.noConfusion hl
    rw [leafOf_getLast p hne, hp] at hl
    exact Option.some.inj hl

/-- Sequential combination of traversal outcomes: the first abnormal
outcome wins, two normal outcomes append. -/
def outAppend : Out (List Mailbox) → Out (List Mailbox) → Out (List Mailbox)
  | Out.ok l1, Out.ok l2 => Out.ok (l1 ++ l2)
  | Out.ok _, o => o
  | o, _ => o

/-- Flatten a list of traversal outcomes left to right. -/
def outFlatten (l : List (Out (List Mailbox))) : Out (List Mailbox) :=
  l.foldr outAppend (Out.ok [])

/-- The child path built by the loop of session.listMailboxes: append the
child name, inserting a delimiter unless the path already ends in one. -/
def childPath (path name : GoStr) : GoStr :=
  match path.getLast? with
  | some lastc => if lastc = pathDelimiter then path ++ name else path ++ pathDelimiter :: name
  | none => name

/-- The contribution of one queried child to a recursive listing: nothing
when the filter drops it, otherwise the child itself followed by the whole
recursive descent below it (the descent runs with no filter and the
recursion flag retained true). -/
def blockOf (child : GoStr → Out (List Mailbox) × List GoStr) (path : GoStr)
    (re : Option (List RItem)) (m : Mailbox) : Out (List Mailbox) :=
  if keep re m then
    match (child (childPath path m.Name)).1 with
    | Out.ok next => Out.ok (m :: next)
    | o => o
  else Out.ok []

/-- The per-child contribution with the descent being listMailboxes at the
remaining fuel. -/
def subtreeBlock (f : Nat) (store : Mailstore) (path : GoStr)
    (re : Option (List RItem)) (m : Mailbox) : Out (List Mailbox) :=
  blockOf (fun p => listMailboxes f store p none true) path re m

/-- Appending a null contribution on the left is the identity. -/
lemma outAppend_ok_nil (o : Out (List Mailbox)) : outAppend (Out.ok []) o = o := by
  cases o <;> simp [outAppend]

/-- The recursive loop is exactly the left-to-right flattening of the
per-child blocks: each kept child is emitted, immediately followed by its
whole descent, then the rest of the children; the first abnormal outcome
aborts everything. -/
lemma lmLoop_rec_blocks (child : GoStr → Out (List Mailbox) × List GoStr)
    (path : GoStr) (re : Option (List RItem)) (hp : path ≠ []) (ms : List Mailbox) :
    (lmLoop child path re true ms).1 = outFlatten (ms.map (blockOf child path re)) := by
  obtain ⟨lastc, hl⟩ : ∃ lastc, path.getLast? = some lastc := by
    cases h : path.getLast? with
    | none => exact absurd (List.getLast?_eq_none_iff.mp h) hp
    | some lastc => exact ⟨lastc, rfl⟩
  induction ms with
  | nil => rfl
  | cons m rest ih =>
    have hcp : (if lastc = pathDelimiter then path ++ m.Name
        else path ++ pathDelimiter :: m.Name) = childPath path m.Name := by
      simp [childPath, hl]
    have hfl : outFlatten ((m :: rest).map (blockOf child path re)) =
        outAppend (blockOf child path re m) (outFlatten (rest.map (blockOf child path re))) := by
      simp [outFlatten]
    rw [hfl, ← ih]
    by_cases hk : keep re m
    · have hstep : lmLoop child path re true (m :: rest) =
          match child (childPath path m.Name) with
          | (Out.ok next, lg1) =>
            (match lmLoop child path re true rest with
             | (Out.ok tail, lg2) => (Out.ok (m :: (next ++ tail)), lg1 ++ lg2)
             | (other, lg2) => (other, lg1 ++ lg2))
          | (other, lg1) => (other, lg1) := by
        rw [lmLoop]
        simp only [hk, if_true, hl, hcp]
      have hbl : blockOf child path re m =
          match (child (childPath path m.Name)).1 with
          | Out.ok next => Out.ok (m :: next)
          | o => o := by
        simp [blockOf, hk]
      rw [hstep, hbl]
      rcases h1 : child (childPath path m.Name) with ⟨o1, lg1⟩
      cases o1 with
      | ok next =>
        rcases h2 : lmLoop child path re true rest with ⟨o2, lg2⟩
        cases o2 <;> simp [outAppend]
      | panic => simp [outAppend]
      | div => simp [outAppend]
      | err e => simp [outAppend]
    · have hstep : lmLoop child path re true (m :: rest) = lmLoop child path re true rest := by
        rw [lmLoop]
        simp [hk]
      have hbl : blockOf child path re m = Out.ok [] := by
        simp [blockOf, hk]
      rw [hstep, hbl, outAppend_ok_nil]

/-- C7: the recursion flag of session.list is true exactly when the leaf
segment of the canonical pattern ends in a star (the code tests the last
character of the whole pattern, which coincides with the last character
of the leaf); and a recursive listing is exactly the flattening, in traversal
order, of one block per queried child — the kept child followed immediately
by its whole descent (run with no filter and the recursion flag retained
true), with nothing deduplicated or sorted and the first abnormal outcome
aborting everything. -/
theorem C7_recursive_traversal (p : GoStr) (c : Char) (f : Nat) (store : Mailstore)
    (path : GoStr) (re : Option (List RItem)) (current : List Mailbox)
    (hp : p.getLast? = some c) (hpath : path ≠ [])
    (hq : store.GetMailboxes path = Except.ok current) :
    ((c = '*') ↔ (leafOf p).getLast? = some '*') ∧
    (listMailboxes (f + 1) store path re true).1 =
      outFlatten (current.map (subtreeBlock f store path re)) := by
  refine ⟨flag_iff_leaf p c hp, ?_⟩
  rw [listMailboxes]
  simp only [hq]
  exact lmLoop_rec_blocks (fun q => listMailboxes f store q none true) path re hpath current

/-- Witness for C7_recursive_traversal at the concrete hierarchy R/ba,
R/ab, R/ab/c, plus the fully evaluated pre-order run: each parent is
emitted before its children. -/
theorem C7_recursive_traversal_witness :
    ((('*' = '*') ↔ (leafOf (gs ("a*"))).getLast? = some '*') ∧
     (listMailboxes 2 pstore (gs ("R/")) none true).1 =
       outFlatten ([mba, mab].map (subtreeBlock 1 pstore (gs ("R/")) none))) ∧
    (listMailboxes 3 pstore (gs ("R/")) none true).1 = Out.ok [mba, mab, mc] :=
  ⟨C7_recursive_traversal (gs ("a*")) '*' 1 pstore (gs ("R/")) none [mba, mab]
      (by decide) (by decide) (by decide),
   by decide⟩

/-- If the loop returns normally, every query it logged satisfies the
predicate, provided the descent has the same property. -/
lemma lmLoop_log_ok (good : GoStr → Prop)
    (child : GoStr → Out (List Mailbox) × List GoStr)
    (hc : ∀ p l lg, child p = (Out.ok l, lg) → ∀ q ∈ lg, good q)
    (path : GoStr) (re : Option (List RItem)) (rec : Bool) :
    ∀ ms l lg, lmLoop child path re rec ms = (Out.ok l, lg) → ∀ q ∈ lg, good q := by
  intro ms
  induction ms with
  | nil =>
    intro l lg h q hq
    rw [lmLoop] at h
    rw [← (Prod.mk.injEq _ _ _ _).mp h |>.2] at hq
    exact absurd hq (List.not_mem_nil q)
  | cons m rest ih =>
    intro l lg h q hq
    by_cases hk : keep re m
    · cases rec with
      | false =>
        rw [lmLoop] at h
        simp only [hk, if_true, Bool.false_eq_true, if_false] at h
        rcases h2 : lmLoop child path re false rest with ⟨o2, lg2⟩
        rw [h2] at h
        cases o2 with
        | ok tail =>
          have hlg : lg = lg2 := ((Prod.mk.injEq _ _ _ _).mp h).2.symm
          exact ih tail lg2 h2 q (hlg ▸ hq)
        | panic => exact absurd ((Prod.mk.injEq _ _ _ _).mp h).1 (by simp)
        | div => exact absurd ((Prod.mk.injEq _ _ _ _).mp h).1 (by simp)
        | err e => exact absurd ((Prod.mk.injEq _ _ _ _).mp h).1 (by simp)
      | true =>
        rw [lmLoop] at h
        simp only [hk, if_true] at h
        cases hgl : path.getLast? with
        | none =>
          rw [hgl] at h
          exact absurd ((Prod.mk.injEq _ _ _ _).mp h).1 (by simp)
        | some lastc =>
          rw [hgl] at h
          simp only [] at h
          rcases h1 : child (if lastc = pathDelimiter then path ++ m.Name
              else path ++ pathDelimiter :: m.Name) with ⟨o1, lg1⟩
          rw [h1] at h
          cases o1 with
          | ok next =>
            rcases h2 : lmLoop child path re true rest with ⟨o2, lg2⟩
            rw [h2] at h
            cases o2 with
            | ok tail =>
              have hlg : lg = lg1 ++ lg2 := ((Prod.mk.injEq _ _ _ _).mp h).2.symm
              rw [hlg] at hq
              rcases List.mem_append.mp hq with hq1 | hq2
              · exact hc _ next lg1 h1 q hq1
              · exact ih tail lg2 h2 q hq2
            | panic => exact absurd ((Prod.mk.injEq _ _ _ _).mp h).1 (by simp)
            | div => exact absurd ((Prod.mk.injEq _ _ _ _).mp h).1 (by simp)
            | err e => exact absurd ((Prod.mk.injEq _ _ _ _).mp h).1 (by simp)
          | panic => exact absurd ((Prod.mk.injEq _ _ _ _).mp h).1 (by simp)
          | div => exact absurd ((Prod.mk.injEq _ _ _ _).mp h).1 (by simp)
          | err e => exact absurd ((Prod.mk.injEq _ _ _ _).mp h).1 (by simp)
    · rw [lmLoop] at h
      simp only [hk, if_false] at h
      exact ih l lg h q hq

/-- If the loop aborts with a storage error, the last query it logged is the
one that failed with that error, provided the descent has the same
property. -/
lemma lmLoop_log_err (isBad : GoStr → GoStr → Prop)
    (child : GoStr → Out (List Mailbox) × List GoStr)
    (hcerr : ∀ p e lg, child p = (Out.err e, lg) → ∃ q, lg.getLast? = some q ∧ isBad q e)
    (path : GoStr) (re : Option (List RItem)) (rec : Bool) :
    ∀ ms e lg, lmLoop child path re rec ms = (Out.err e, lg) →
      ∃ q, lg.getLast? = some q ∧ isBad q e := by
  intro ms
  induction ms with
  | nil =>
    intro e lg h
    rw [lmLoop] at h
    exact absurd ((Prod.mk.injEq _ _ _ _).mp h).1 (by simp)
  | cons m rest ih =>
    intro e lg h
    by_cases hk : keep re m
    · cases rec with
      | false =>
        rw [lmLoop] at h
        simp only [hk, if_true, Bool.false_eq_true, if_false] at h
        rcases h2 : lmLoop child path re false rest with ⟨o2, lg2⟩
        rw [h2] at h
        cases o2 with
        | ok tail => exact absurd ((Prod.mk.injEq _ _ _ _).mp h).1 (by simp)
        | panic => exact absurd ((Prod.mk.injEq _ _ _ _).mp h).1 (by simp)
        | div => exact absurd ((Prod.mk.injEq _ _ _ _).mp h).1 (by simp)
        | err e2 =>
          obtain ⟨he, hlg⟩ := (Prod.mk.injEq _ _ _ _).mp h
          have he2 : e2 = e := by
            injection he
          rw [he2] at h2
          rw [← hlg]
          exact ih e lg2 h2
      | true =>
        rw [lmLoop] at h
        simp only [hk, if_true] at h
        cases hgl : path.getLast? with
        | none =>
          rw [hgl] at h
          exact absurd ((Prod.mk.injEq _ _ _ _).mp h).1 (by simp)
        | some lastc =>
          rw [hgl] at h
          simp only [] at h
          rcases h1 : child (if lastc = pathDelimiter then path ++ m.Name
              else path ++ pathDelimiter :: m.Name) with ⟨o1, lg1⟩
          rw [h1] at h
          cases o1 with
          | ok next =>
            rcases h2 : lmLoop child path re true rest with ⟨o2, lg2⟩
            rw [h2] at h
            cases o2 with
            | ok tail => exact absurd ((Prod.mk.injEq _ _ _ _).mp h).1 (by simp)
            | panic => exact absurd ((Prod.mk.injEq _ _ _ _).mp h).1 (by simp)
            | div => exact absurd ((Prod.mk.injEq _ _ _ _).mp h).1 (by simp)
            | err e2 =>
              obtain ⟨he, hlg⟩ := (Prod.mk.injEq _ _ _ _).mp h
              have he2 : e2 = e := by
                injection he
              rw [he2] at h2
              obtain ⟨q, hq1, hq2⟩ := ih e lg2 h2
              have hlg2 : lg2 ≠ [] := by
                intro h0
                rw [h0] at hq1
                exact Option.noConfusion hq1
              refine ⟨q, ?_, hq2⟩
              rw [← hlg, List.getLast?_append_of_ne_nil lg1 hlg2]
              exact hq1
          | panic => exact absurd ((Prod.mk.injEq _ _ _ _).mp h).1 (by simp)
          | div => exact absurd ((Prod.mk.injEq _ _ _ _).mp h).1 (by simp)
          | err e2 =>
            obtain ⟨he, hlg⟩ := (Prod.mk.injEq _ _ _ _).mp h
            have he2 : e2 = e := by
              injection he
            rw [he2] at h1
            rw [← hlg]
            exact hcerr _ e lg1 h1
    · rw [lmLoop] at h
      simp only [hk, if_false] at h
      exact ih e lg h

/-- Every query logged by a normally returning traversal succeeded: a
storage error at any issued query forecloses a normal result. -/
lemma listMailboxes_log_ok (store : Mailstore) :
    ∀ f path re rec l lg, listMailboxes f store path re rec = (Out.ok l, lg) →
      ∀ q ∈ lg, ∃ cs, store.GetMailboxes q = Except.ok cs := by
  intro f
  induction f with
  | zero =>
    intro path re rec l lg h
    rw [listMailboxes] at h
    exact absurd ((Prod.mk.injEq _ _ _ _).mp h).1 (by simp)
  | succ f ih =>
    intro path re rec l lg h q hq
    rw [listMailboxes] at h
    cases hgm : store.GetMailboxes path with
    | error e =>
      rw [hgm] at h
      simp only [] at h
      exact absurd ((Prod.mk.injEq _ _ _ _).mp h).1 (by simp)
    | ok current =>
      rw [hgm] at h
      simp only [] at h
      rcases h2 : lmLoop (fun p => listMailboxes f store p none true) path re rec current
        with ⟨o2, lg2⟩
      rw [h2] at h
      obtain ⟨ho, hlg⟩ := (Prod.mk.injEq _ _ _ _).mp h
      rw [← hlg] at hq
      rcases List.mem_cons.mp hq with rfl | hq2
      · exact ⟨current, hgm⟩
      · rw [show o2 = Out.ok l from ho] at h2
        exact lmLoop_log_ok (fun q2 => ∃ cs, store.GetMailboxes q2 = Except.ok cs)
          (fun p => listMailboxes f store p none true)
          (fun p2 l2 lg3 h3 => ih p2 none true l2 lg3 h3)
          path re rec current l lg2 h2 q hq2

/-- A traversal that aborts with a storage error logged the failing query
last, and the error returned is the error of that query. -/
lemma listMailboxes_log_err (store : Mailstore) :
    ∀ f path re rec e lg, listMailboxes f store path re rec = (Out.err e, lg) →
      ∃ q, lg.getLast? = some q ∧ store.GetMailboxes q = Except.error e := by
  intro f
  induction f with
  | zero =>
    intro path re rec e lg h
    rw [listMailboxes] at h
    exact absurd ((Prod.mk.injEq _ _ _ _).mp h).1 (by simp)
  | succ f ih =>
    intro path re rec e lg h
    rw [listMailboxes] at h
    cases hgm : store.GetMailboxes path with
    | error e2 =>
      rw [hgm] at h
      simp only [] at h
      obtain ⟨ho, hlg⟩ := (Prod.mk.injEq _ _ _ _).mp h
      have he : e2 = e := by
        injection ho
      rw [he] at hgm
      refine ⟨path, ?_, hgm⟩
      rw [← hlg]
      rfl
    | ok current =>
      rw [hgm] at h
      simp only [] at h
      rcases h2 : lmLoop (fun p => listMailboxes f store p none true) path re rec current
        with ⟨o2, lg2⟩
      rw [h2] at h
      obtain ⟨ho, hlg⟩ := (Prod.mk.injEq _ _ _ _).mp h
      rw [show o2 = Out.err e from ho] at h2
      obtain ⟨q, hq1, hq2⟩ :=
        lmLoop_log_err (fun q2 e2 => store.GetMailboxes q2 = Except.error e2)
          (fun p => listMailboxes f store p none true)
          (fun p2 e2 lg3 h3 => ih p2 none true e2 lg3 h3)
          path re rec current e lg2 h2
      have hlg2ne : lg2 ≠ [] := by
        intro h0
        rw [h0] at hq1
        exact Option.noConfusion hq1
      refine ⟨q, ?_, hq2⟩
      rw [← hlg, show path :: lg2 = [path] ++ lg2 from rfl,
        List.getLast?_append_of_ne_nil _ hlg2ne]
      exact hq1

/-- C8: a LIST traversal never returns a partial result — if the run
returned normally then every single query it issued succeeded, and if any
query failed the traversal stops there (the failing query is the last one
logged and its error is the whole outcome, the mailboxes collected before
it being discarded by construction); list.execute converts the error into
the internalError response, a NO carrying the error text with the
connection-close flag set. -/
theorem C8_error_aborts (f : Nat) (store : Mailstore) :
    (∀ path re rec l lg, listMailboxes f store path re rec = (Out.ok l, lg) →
       ∀ q ∈ lg, ∃ cs, store.GetMailboxes q = Except.ok cs) ∧
    (∀ path re rec e lg, listMailboxes f store path re rec = (Out.err e, lg) →
       ∃ q, lg.getLast? = some q ∧ store.GetMailboxes q = Except.error e) ∧
    (∀ tag c e, (internalError tag c e).status = RStatus.NO ∧
       (internalError tag c e).closeConnection = true ∧
       (internalError tag c e).message = c ++ (gs (" ")) ++ e) ∧
    (∀ tag reference mboxPattern sess reference2 pattern2 e lg,
       sess.st = Stat.authenticated →
       mboxPattern ≠ [] →
       addTrailingDelimiter reference = some reference2 →
       removeDelimiters mboxPattern = some pattern2 →
       sess.config.Mailstore = store →
       sessList f store reference2 pattern2 = (Out.err e, lg) →
       listExecute f tag reference mboxPattern sess =
         (Out.ok (internalError tag (gs ("LIST")) e), lg)) := by
  refine ⟨listMailboxes_log_ok store f, listMailboxes_log_err store f,
    fun tag c e => ⟨rfl, rfl, rfl⟩, ?_⟩
  intro tag reference mboxPattern sess reference2 pattern2 e lg hst hne hat hrd hms hsl
  have h1 : ¬(sess.st ≠ Stat.authenticated) := by
    rw [hst]
    simp
  rw [listExecute.eq_def, if_neg h1, if_neg hne, hat, hrd, hms]
  simp only [hsl]

/-- Mailbox a below E, for the aborting traversal run. -/
def me1 : Mailbox := { Id := 21, Name := gs ("a"), Path := gs ("E/a"), Flags := 0 }

/-- Mailbox b below E, for the aborting traversal run. -/
def me2 : Mailbox := { Id := 22, Name := gs ("b"), Path := gs ("E/b"), Flags := 0 }

/-- A store failing below E/b: listing E succeeds with two children, the
first child has no children, querying the children of the second child fails. -/
def estore : Mailstore :=
  { GetMailbox := fun _ => Except.ok none,
    GetMailboxes := fun p =>
      if p = gs ("E/") then Except.ok [me1, me2]
      else if p = gs ("E/a") then Except.ok []
      else if p = gs ("E/b") then Except.error (gs ("disk failure"))
      else Except.ok [],
    FirstUnseen := fun _ => Except.ok 0,
    TotalMessages := fun _ => Except.ok 0,
    RecentMessages := fun _ => Except.ok 0,
    NextUid := fun _ => Except.ok 0 }

/-- An authenticated session over the failing store. -/
def esess : Session :=
  { id := 8, st := Stat.authenticated, mailbox := none, config := { Mailstore := estore } }

/-- Witness for C8_error_aborts: LIST * over the failing store queried E/,
then E/a (which had already succeeded), then E/b whose failure aborts the
whole command with the closing NO response and no partial mailbox lines. -/
theorem C8_error_aborts_witness :
    listExecute 3 (gs ("t8")) (gs ("E")) (gs ("*")) esess =
      (Out.ok (internalError (gs ("t8")) (gs ("LIST")) (gs ("disk failure"))),
       [gs ("E/"), gs ("E/a"), gs ("E/b")]) :=
  (C8_error_aborts 3 estore).2.2.2 (gs ("t8")) (gs ("E")) (gs ("*")) esess
    (gs ("E/")) (gs ("*")) (gs ("disk failure")) [gs ("E/"), gs ("E/a"), gs ("E/b")]
    rfl (by decide) (by decide) (by decide) rfl (by decide)

end Imapsrv
